import Mathlib

/-!
Verification of the FFTW binding layer `src/ffts.cpp` of the ravetools
package, as a shallow embedding.

Each C entry point is modelled as a pure Lean function over explicit
buffers (Lean lists).  The FFTW library itself is abstract: the transform
kernel is a function parameter (`dft`), the garbage that a destructive,
non-ESTIMATE planning step writes into its input buffer is a parameter
(`pj`), the garbage that an execution with `FFTW_DESTROY_INPUT` may leave
in the input buffer is a parameter (`xj`), and the uninitialized contents
handed out by `malloc` are a parameter (`uninit`).  Buffer elements are
modelled as exact integers: the claims checked here are structural
(operation order, copy lengths, index arithmetic, sign selection), not
about floating-point rounding.  Each model function also returns the
ordered trace of allocation / plan / copy / execute events performed by
the corresponding C function, and the contents `execIn` of the planned
input buffer at the moment `fftw_execute` runs.
-/

namespace Ffts

/-- Complex value as a pair of coordinates (the model of `fftw_complex`,
`double[2]` in the C source, with exact coordinates). -/
structure CQ where
  re : Int
  im : Int
deriving DecidableEq

/-- Complex conjugate, the operation the Hermitian loop applies:
real part kept, imaginary part negated. -/
def CQ.conj (z : CQ) : CQ := ⟨z.re, -z.im⟩

/-- Planner flag `FFTW_MEASURE` (value `0U` in fftw3.h). -/
def FFTW_MEASURE : Nat := 0

/-- Planner flag `FFTW_EXHAUSTIVE` (value `1U << 3` in fftw3.h). -/
def FFTW_EXHAUSTIVE : Nat := 8

/-- Planner flag `FFTW_PATIENT` (value `1U << 5` in fftw3.h). -/
def FFTW_PATIENT : Nat := 32

/-- Planner flag `FFTW_ESTIMATE` (value `1U << 6` in fftw3.h). -/
def FFTW_ESTIMATE : Nat := 64

/-- Transform direction `FFTW_FORWARD` (value `-1` in fftw3.h). -/
def FFTW_FORWARD : Int := -1

/-- Transform direction `FFTW_BACKWARD` (value `+1` in fftw3.h). -/
def FFTW_BACKWARD : Int := 1

/-- `fftw_efforts` from ffts.cpp: maps the caller-supplied integer option
to an FFTW planner-effort flag. -/
def fftw_efforts (fftwplanopt : Int) : Nat :=
  if fftwplanopt ≤ 0 then FFTW_ESTIMATE
  else if fftwplanopt = 1 then FFTW_MEASURE
  else if fftwplanopt = 2 then FFTW_PATIENT
  else FFTW_EXHAUSTIVE

/-- Which buffer an event touches: the caller's input buffer or the
call-local scratch buffer (`data_copy` in the C source). -/
inductive Buf
  | caller
  | scratch
deriving DecidableEq

/-- Observable events of one call, in program order: `malloc` of the
scratch buffer (recording the requested element count and whether the
allocation succeeded), plan creation against a buffer, `memcpy` of the
caller's data into a buffer (recording the element count), plan
execution, plan destruction, and `free`. -/
inductive Event
  | alloc (size : Nat) (ok : Bool)
  | planCreate (buf : Buf)
  | memcpy (dst : Buf) (len : Nat)
  | execute
  | planDestroy
  | free
deriving DecidableEq

def Event.isAlloc : Event → Bool
  | .alloc _ _ => true
  | _ => false

def Event.isPlanCreate : Event → Bool
  | .planCreate _ => true
  | _ => false

def Event.isMemcpy : Event → Bool
  | .memcpy _ _ => true
  | _ => false

def Event.isExecute : Event → Bool
  | .execute => true
  | _ => false

/-- `noneBefore p stop tr` holds when no `p`-event occurs in `tr` strictly
before the first `stop`-event. -/
def noneBefore (p stop : Event → Bool) (tr : List Event) : Bool :=
  ((tr.takeWhile fun e => !(stop e)).filter p).isEmpty

/-- A fresh heap block of `size` elements with uninitialized contents. -/
def malloc {α : Type} (size : Nat) (uninit : Nat → α) : List α :=
  (List.range size).map uninit

/-- Destructive overwrite of a whole buffer (what a non-ESTIMATE planning
step, or an execution with `FFTW_DESTROY_INPUT`, may do to the buffer it
was given); the length is preserved, the contents are arbitrary. -/
def clobber {α : Type} (f : Nat → α) (b : List α) : List α :=
  (List.range b.length).map f

/-- `memcpy dst src len`: the first `len` elements of `dst` are replaced
by the first `len` elements of `src` (C argument order). -/
def memcpy {α : Type} (dst src : List α) (len : Nat) : List α :=
  src.take len ++ dst.drop len

/-- `nc = *n/2 + 1` as computed in ffts.cpp: the number of non-redundant
complex bins of a length-`n` real-to-complex transform. -/
def r2c_nc (n : Nat) : Nat := n / 2 + 1

/-- The index range `[nc, n)` walked by the Hermitian-reconstruction loop
`for (i = nc; i < *n; i++)` of `cfft_r2c`. -/
def hermIdxs (n : Nat) : List Nat :=
  List.range' (r2c_nc n) (n - r2c_nc n)

/-- One iteration of the Hermitian loop body:
`res[i].re = res[n-i].re; res[i].im = -res[n-i].im`. -/
def hermStep (n : Nat) (acc : List CQ) (i : Nat) : List CQ :=
  acc.set i (CQ.conj (acc.getD (n - i) ⟨0, 0⟩))

/-- The whole Hermitian-reconstruction loop of `cfft_r2c`. -/
def hermconj (n : Nat) (res : List CQ) : List CQ :=
  (hermIdxs n).foldl (hermStep n) res

/-- The `if (*retHermConj == 1)` guard around the Hermitian loop. -/
def hermFill (retHermConj : Int) (n : Nat) (res : List CQ) : List CQ :=
  if retHermConj = 1 then hermconj n res else res

/-- Result of one modelled call: the caller's input buffer after the call,
the caller's output buffer after the call, the event trace, and the
contents of the planned input buffer at execution time. -/
structure CallOut (α : Type) (β : Type) where
  data : List α
  res : List β
  tr : List Event
  execIn : List α

/-- `cfft_r2c` from ffts.cpp.  ESTIMATE branch: the plan is built against
the caller's buffer (ESTIMATE planning is non-destructive), execution
reads it and — `FFTW_DESTROY_INPUT` being set — may clobber it.
Non-ESTIMATE branch: scratch is malloc'ed, the plan is built against the
scratch (destroying its contents), the caller's `n` reals are memcpy'ed
in, and execution reads the scratch; the caller's buffer is untouched.
The kernel `dft` maps the executed input buffer to the complex bins
written into the first `nc` slots of `res`. -/
def cfft_r2c (n : Nat) (data : List Int) (retHermConj : Int)
    (fftwplanopt : Int) (dft : List Int → List CQ)
    (uninit pj xj : Nat → Int) (allocOk : Bool)
    (res0 : List CQ) : CallOut Int CQ :=
  if fftw_efforts fftwplanopt = FFTW_ESTIMATE then
    ⟨clobber xj data,
     hermFill retHermConj n (memcpy res0 (dft data) (r2c_nc n)),
     [.planCreate .caller, .execute, .planDestroy],
     data⟩
  else
    ⟨data,
     hermFill retHermConj n
       (memcpy res0 (dft (memcpy (clobber pj (malloc n uninit)) data n))
         (r2c_nc n)),
     [.alloc n allocOk, .planCreate .scratch, .memcpy .scratch n,
      .execute, .planDestroy, .free],
     memcpy (clobber pj (malloc n uninit)) data n⟩

/-- `cmvfft_r2c` from ffts.cpp: batched real-to-complex transform, `m`
signals of length `n`.  Non-ESTIMATE branch mallocs `n*m` reals, plans
against the scratch, then memcpy's the full `n*m` reals. -/
def cmvfft_r2c (n m : Nat) (data : List Int) (fftwplanopt : Int)
    (dft : List Int → List CQ) (uninit pj xj : Nat → Int) (allocOk : Bool)
    (res0 : List CQ) : CallOut Int CQ :=
  if fftw_efforts fftwplanopt = FFTW_ESTIMATE then
    ⟨clobber xj data,
     memcpy res0 (dft data) (r2c_nc n * m),
     [.planCreate .caller, .execute, .planDestroy],
     data⟩
  else
    ⟨data,
     memcpy res0 (dft (memcpy (clobber pj (malloc (n * m) uninit)) data (n * m)))
       (r2c_nc n * m),
     [.alloc (n * m) allocOk, .planCreate .scratch, .memcpy .scratch (n * m),
      .execute, .planDestroy, .free],
     memcpy (clobber pj (malloc (n * m) uninit)) data (n * m)⟩

/-- `cmvfft_c2r` from ffts.cpp: batched complex-to-real transform, `m`
signals, each with `nc = n/2+1` complex input bins.  Non-ESTIMATE branch
mallocs `n*m` complex elements but memcpy's only `n` complex elements
(`*n * sizeof(fftw_complex)` in the source). -/
def cmvfft_c2r (n m : Nat) (data : List CQ) (fftwplanopt : Int)
    (dft : List CQ → List Int) (uninit pj xj : Nat → CQ) (allocOk : Bool)
    (res0 : List Int) : CallOut CQ Int :=
  if fftw_efforts fftwplanopt = FFTW_ESTIMATE then
    ⟨clobber xj data,
     memcpy res0 (dft data) (n * m),
     [.planCreate .caller, .execute, .planDestroy],
     data⟩
  else
    ⟨data,
     memcpy res0 (dft (memcpy (clobber pj (malloc (n * m) uninit)) data n))
       (n * m),
     [.alloc (n * m) allocOk, .planCreate .scratch, .memcpy .scratch n,
      .execute, .planDestroy, .free],
     memcpy (clobber pj (malloc (n * m) uninit)) data n⟩

/-- Result of a complex-to-complex call; also records the direction sign
passed to the planner. -/
structure C2COut where
  data : List CQ
  res : List CQ
  sign : Int
  tr : List Event
  execIn : List CQ

/-- `cmvfft_c2c` from ffts.cpp: batched complex-to-complex transform.
Non-ESTIMATE branch mallocs `n*m` complex elements but memcpy's only `n`
complex elements (`*n * sizeof(fftw_complex)` in the source).  The kernel
`dft` takes the chosen direction sign and the executed input buffer. -/
def cmvfft_c2c (n m : Nat) (data : List CQ) (inverse : Int)
    (fftwplanopt : Int) (dft : Int → List CQ → List CQ)
    (uninit pj xj : Nat → CQ) (allocOk : Bool)
    (res0 : List CQ) : C2COut :=
  if fftw_efforts fftwplanopt = FFTW_ESTIMATE then
    ⟨clobber xj data,
     memcpy res0 (dft (if inverse = 1 then FFTW_BACKWARD else FFTW_FORWARD) data)
       (n * m),
     if inverse = 1 then FFTW_BACKWARD else FFTW_FORWARD,
     [.planCreate .caller, .execute, .planDestroy],
     data⟩
  else
    ⟨data,
     memcpy res0
       (dft (if inverse = 1 then FFTW_BACKWARD else FFTW_FORWARD)
         (memcpy (clobber pj (malloc (n * m) uninit)) data n))
       (n * m),
     if inverse = 1 then FFTW_BACKWARD else FFTW_FORWARD,
     [.alloc (n * m) allocOk, .planCreate .scratch, .memcpy .scratch n,
      .execute, .planDestroy, .free],
     memcpy (clobber pj (malloc (n * m) uninit)) data n⟩

/-- `cfft_c2c` from ffts.cpp: 1-D complex-to-complex transform, always
planned with `FFTW_ESTIMATE` against the caller's buffer. -/
def cfft_c2c (n : Nat) (data : List CQ) (inverse : Int)
    (dft : Int → List CQ → List CQ) (xj : Nat → CQ)
    (res0 : List CQ) : C2COut :=
  ⟨clobber xj data,
   memcpy res0 (dft (if inverse = 1 then FFTW_BACKWARD else FFTW_FORWARD) data) n,
   if inverse = 1 then FFTW_BACKWARD else FFTW_FORWARD,
   [.planCreate .caller, .execute, .planDestroy],
   data⟩

/-- `cfft_c2c_2d` from ffts.cpp: 2-D complex-to-complex transform. -/
def cfft_c2c_2d (nx ny : Nat) (data : List CQ) (inverse : Int)
    (dft : Int → List CQ → List CQ) (xj : Nat → CQ)
    (res0 : List CQ) : C2COut :=
  ⟨clobber xj data,
   memcpy res0 (dft (if inverse = 1 then FFTW_BACKWARD else FFTW_FORWARD) data)
     (nx * ny),
   if inverse = 1 then FFTW_BACKWARD else FFTW_FORWARD,
   [.planCreate .caller, .execute, .planDestroy],
   data⟩

/-- `cfft_c2c_3d` from ffts.cpp: 3-D complex-to-complex transform. -/
def cfft_c2c_3d (nx ny nz : Nat) (data : List CQ) (inverse : Int)
    (dft : Int → List CQ → List CQ) (xj : Nat → CQ)
    (res0 : List CQ) : C2COut :=
  ⟨clobber xj data,
   memcpy res0 (dft (if inverse = 1 then FFTW_BACKWARD else FFTW_FORWARD) data)
     (nx * ny * nz),
   if inverse = 1 then FFTW_BACKWARD else FFTW_FORWARD,
   [.planCreate .caller, .execute, .planDestroy],
   data⟩

/-- `cfft_c2c_xd` from ffts.cpp: rank-`r` complex-to-complex transform
over the extents `dims`. -/
def cfft_c2c_xd (r : Nat) (dims : List Nat) (data : List CQ) (inverse : Int)
    (dft : Int → List CQ → List CQ) (xj : Nat → CQ)
    (res0 : List CQ) : C2COut :=
  ⟨clobber xj data,
   memcpy res0 (dft (if inverse = 1 then FFTW_BACKWARD else FFTW_FORWARD) data)
     (dims.take r).prod,
   if inverse = 1 then FFTW_BACKWARD else FFTW_FORWARD,
   [.planCreate .caller, .execute, .planDestroy],
   data⟩

/-- The ordering the spec requires of a scratch-path call: allocation
before plan creation, no copy before plan creation, no execution before
the copy, and all three steps present. -/
def goodPlanOrder (tr : List Event) : Bool :=
  noneBefore Event.isPlanCreate Event.isAlloc tr &&
  noneBefore Event.isMemcpy Event.isPlanCreate tr &&
  noneBefore Event.isExecute Event.isMemcpy tr &&
  tr.any Event.isAlloc && tr.any Event.isPlanCreate && tr.any Event.isMemcpy

/-- C8: the effort-level mapper is a pure, total function with exactly
the mapping: any code ≤ 0 yields `FFTW_ESTIMATE` (fastest guess), 1
yields `FFTW_MEASURE`, 2 yields `FFTW_PATIENT`, and any other value
(including every value ≥ 3) yields `FFTW_EXHAUSTIVE`; no input errors. -/
theorem fftw_efforts_mapping (o : Int) :
    (o ≤ 0 → fftw_efforts o = FFTW_ESTIMATE) ∧
    (o = 1 → fftw_efforts o = FFTW_MEASURE) ∧
    (o = 2 → fftw_efforts o = FFTW_PATIENT) ∧
    (¬ o ≤ 0 → o ≠ 1 → o ≠ 2 → fftw_efforts o = FFTW_EXHAUSTIVE) ∧
    (3 ≤ o → fftw_efforts o = FFTW_EXHAUSTIVE) := by
  unfold fftw_efforts
  split_ifs with h1 h2 h3 <;>
    refine ⟨fun h => ?_, fun h => ?_, fun h => ?_, fun ha hb hc => ?_,
      fun h => ?_⟩ <;>
    first | rfl | omega

/-- Witness for C8: the mapper evaluated at one representative of each
tier. -/
theorem fftw_efforts_mapping_concrete :
    fftw_efforts (-5) = FFTW_ESTIMATE ∧ fftw_efforts 1 = FFTW_MEASURE ∧
    fftw_efforts 2 = FFTW_PATIENT ∧ fftw_efforts 7 = FFTW_EXHAUSTIVE :=
  ⟨(fftw_efforts_mapping (-5)).1 (by decide),
   (fftw_efforts_mapping 1).2.1 rfl,
   (fftw_efforts_mapping 2).2.2.1 rfl,
   (fftw_efforts_mapping 7).2.2.2.2 (by decide)⟩

lemma malloc_length {α : Type} (size : Nat) (u : Nat → α) :
    (malloc size u).length = size := by
  unfold malloc
  rw [List.length_map, List.length_range]

lemma clobber_length {α : Type} (f : Nat → α) (b : List α) :
    (clobber f b).length = b.length := by
  unfold clobber
  rw [List.length_map, List.length_range]

lemma clobber_getD {α : Type} (f : Nat → α) (b : List α) (j : Nat) (d : α)
    (h : j < b.length) : (clobber f b).getD j d = f j := by
  unfold clobber
  rw [List.getD_eq_getElem?_getD, List.getElem?_map, List.getElem?_range h]
  rfl

lemma memcpy_length {α : Type} (dst src : List α) (len : Nat) :
    (memcpy dst src len).length = min len src.length + (dst.length - len) := by
  unfold memcpy
  rw [List.length_append, List.length_take, List.length_drop]

/-- Positions at or beyond the copied length are untouched by `memcpy`. -/
lemma memcpy_getD_high {α : Type} (dst src : List α) (len j : Nat) (d : α)
    (hsrc : len ≤ src.length) (hj1 : len ≤ j) :
    (memcpy dst src len).getD j d = dst.getD j d := by
  unfold memcpy
  have hlen_take : (src.take len).length = len := by
    rw [List.length_take]
    exact Nat.min_eq_left hsrc
  rw [List.getD_eq_getElem?_getD,
    List.getElem?_append_right (by rw [hlen_take]; exact hj1), hlen_take,
    List.getElem?_drop, List.getD_eq_getElem?_getD]
  have hidx : len + (j - len) = j := by omega
  rw [hidx]

/-- The Hermitian fold leaves every position outside its index list
unchanged. -/
lemma herm_foldl_getD_not_mem (n : Nat) (idxs : List Nat) :
    ∀ (res : List CQ) (j : Nat), j ∉ idxs →
      (idxs.foldl (hermStep n) res).getD j ⟨0, 0⟩ = res.getD j ⟨0, 0⟩ := by
  induction idxs with
  | nil => intro res j _; rfl
  | cons a t ih =>
    intro res j hj
    have hja : a ≠ j := fun h => hj (h ▸ List.mem_cons_self a t)
    have hjt : j ∉ t := fun h => hj (List.mem_cons_of_mem a h)
    show (t.foldl (hermStep n) (hermStep n res a)).getD j ⟨0, 0⟩ = _
    rw [ih (hermStep n res a) j hjt]
    unfold hermStep
    rw [List.getD_eq_getElem?_getD, List.getElem?_set_ne hja,
      List.getD_eq_getElem?_getD]

/-- The Hermitian fold preserves the buffer length. -/
lemma herm_foldl_length (n : Nat) (idxs : List Nat) :
    ∀ res : List CQ, (idxs.foldl (hermStep n) res).length = res.length := by
  induction idxs with
  | nil => intro res; rfl
  | cons a t ih =>
    intro res
    show (t.foldl (hermStep n) (hermStep n res a)).length = _
    rw [ih (hermStep n res a)]
    exact List.length_set res a _

/-- The mirrored source index of the Hermitian loop lies strictly below
`nc` whenever the loop index is at least `nc`. -/
lemma herm_mirror_lt_nc {n i : Nat} (h : r2c_nc n ≤ i) : n - i < r2c_nc n := by
  unfold r2c_nc at h ⊢
  omega

/-- Value written by the Hermitian fold at each of its indices: the
conjugate of the original buffer's mirrored entry. -/
lemma herm_foldl_getD_mem (n : Nat) (idxs : List Nat) :
    ∀ (res : List CQ) (i : Nat), idxs.Nodup → i ∈ idxs →
      (∀ k ∈ idxs, r2c_nc n ≤ k ∧ k < res.length) →
      (idxs.foldl (hermStep n) res).getD i ⟨0, 0⟩ =
        CQ.conj (res.getD (n - i) ⟨0, 0⟩) := by
  induction idxs with
  | nil => intro _ _ _ hmem _; cases hmem
  | cons a t ih =>
    intro res i hnd hmem hk
    have hat : a ∉ t := (List.nodup_cons.mp hnd).1
    have hndt : t.Nodup := (List.nodup_cons.mp hnd).2
    show (t.foldl (hermStep n) (hermStep n res a)).getD i ⟨0, 0⟩ = _
    rcases List.mem_cons.mp hmem with hia | hit
    · subst hia
      rw [herm_foldl_getD_not_mem n t (hermStep n res i) i hat]
      unfold hermStep
      have hilen : i < res.length := (hk i (List.mem_cons_self i t)).2
      rw [List.getD_eq_getElem?_getD, List.getElem?_set_self hilen]
      rfl
    · have hkt : ∀ k ∈ t, r2c_nc n ≤ k ∧ k < (hermStep n res a).length := by
        intro k hkm
        have := hk k (List.mem_cons_of_mem a hkm)
        unfold hermStep
        rw [List.length_set]
        exact this
      rw [ih (hermStep n res a) i hndt hit hkt]
      have hanc : r2c_nc n ≤ a := (hk a (List.mem_cons_self a t)).1
      have hinc : r2c_nc n ≤ i := (hk i (List.mem_cons_of_mem a hit)).1
      have hane : a ≠ n - i :=
        Nat.ne_of_gt (lt_of_lt_of_le (herm_mirror_lt_nc hinc) hanc)
      unfold hermStep
      rw [List.getD_eq_getElem?_getD, List.getElem?_set_ne hane,
        List.getD_eq_getElem?_getD]

/-- Membership in the Hermitian loop's index range. -/
lemma mem_hermIdxs (n i : Nat) :
    i ∈ hermIdxs n ↔ r2c_nc n ≤ i ∧ i < r2c_nc n + (n - r2c_nc n) := by
  unfold hermIdxs
  exact List.mem_range'_1

/-- After the Hermitian loop, every index in `[nc, n)` of a length-`n`
buffer holds the conjugate of what the final buffer holds at the
mirrored index. -/
lemma hermconj_getD (n : Nat) (res1 : List CQ) (hlen : res1.length = n)
    (i : Nat) (h1 : r2c_nc n ≤ i) (h2 : i < n) :
    (hermconj n res1).getD i ⟨0, 0⟩ =
      CQ.conj ((hermconj n res1).getD (n - i) ⟨0, 0⟩) := by
  have hnd : (hermIdxs n).Nodup := by
    unfold hermIdxs
    exact List.nodup_range' _ _
  have hmem : i ∈ hermIdxs n := by
    rw [mem_hermIdxs]
    unfold r2c_nc at h1 ⊢
    omega
  have hk : ∀ k ∈ hermIdxs n, r2c_nc n ≤ k ∧ k < res1.length := by
    intro k hkm
    rw [mem_hermIdxs] at hkm
    unfold r2c_nc at hkm ⊢
    omega
  have hni : n - i ∉ hermIdxs n := by
    intro hmem2
    rw [mem_hermIdxs] at hmem2
    exact absurd hmem2.1 (Nat.not_le.mpr (herm_mirror_lt_nc h1))
  unfold hermconj
  rw [herm_foldl_getD_mem n (hermIdxs n) res1 i hnd hmem hk,
    herm_foldl_getD_not_mem n (hermIdxs n) res1 (n - i) hni]

/-- The guarded Hermitian fill with the flag set produces a buffer whose
upper half is the conjugate mirror of its lower half. -/
lemma hermFill_one_getD (n : Nat) (res1 : List CQ) (hlen : res1.length = n)
    (i : Nat) (h1 : r2c_nc n ≤ i) (h2 : i < n) :
    (hermFill 1 n res1).getD i ⟨0, 0⟩ =
      CQ.conj ((hermFill 1 n res1).getD (n - i) ⟨0, 0⟩) := by
  unfold hermFill
  rw [if_pos rfl]
  exact hermconj_getD n res1 hlen i h1 h2

/-- C4: after a call to `cfft_r2c` with the Hermitian-reconstruction flag
set, every output index `i` in `[⌊n/2⌋+1, n)` satisfies
`output[i] = conjugate(output[n-i])` (real part copied, imaginary part
negated from the mirrored bin). -/
theorem cfft_r2c_hermitian (n : Nat) (data : List Int) (opt : Int)
    (dft : List Int → List CQ) (u p x : Nat → Int) (ok : Bool)
    (res0 : List CQ) (hres : res0.length = n)
    (hdft : ∀ l, (dft l).length = r2c_nc n)
    (i : Nat) (h1 : r2c_nc n ≤ i) (h2 : i < n) :
    (cfft_r2c n data 1 opt dft u p x ok res0).res.getD i ⟨0, 0⟩ =
      CQ.conj ((cfft_r2c n data 1 opt dft u p x ok res0).res.getD (n - i)
        ⟨0, 0⟩) := by
  have hnc : r2c_nc n ≤ n := le_trans h1 (le_of_lt h2)
  unfold cfft_r2c
  split
  · have hlen1 : (memcpy res0 (dft data) (r2c_nc n)).length = n := by
      rw [memcpy_length, hdft, hres]
      omega
    exact hermFill_one_getD n _ hlen1 i h1 h2
  · have hlen1 : (memcpy res0
        (dft (memcpy (clobber p (malloc n u)) data n)) (r2c_nc n)).length
        = n := by
      rw [memcpy_length, hdft, hres]
      omega
    exact hermFill_one_getD n _ hlen1 i h1 h2

/-- Witness for C4: the Hermitian symmetry checked at `n = 4`, `i = 3`
on a concrete call. -/
theorem cfft_r2c_hermitian_concrete :
    ([⟨0, 0⟩, ⟨0, 0⟩, ⟨0, 0⟩, ⟨0, 0⟩] : List CQ).length = 4 ∧
    r2c_nc 4 ≤ 3 ∧ 3 < 4 ∧
    (cfft_r2c 4 [1, 2, 3, 4] 1 1 (fun _ => [⟨1, 1⟩, ⟨2, 2⟩, ⟨3, 3⟩])
      (fun _ => 0) (fun _ => 0) (fun _ => 0) true
      [⟨0, 0⟩, ⟨0, 0⟩, ⟨0, 0⟩, ⟨0, 0⟩]).res.getD 3 ⟨0, 0⟩ =
      CQ.conj ((cfft_r2c 4 [1, 2, 3, 4] 1 1 (fun _ => [⟨1, 1⟩, ⟨2, 2⟩, ⟨3, 3⟩])
        (fun _ => 0) (fun _ => 0) (fun _ => 0) true
        [⟨0, 0⟩, ⟨0, 0⟩, ⟨0, 0⟩, ⟨0, 0⟩]).res.getD 1 ⟨0, 0⟩) := by
  refine ⟨by decide, by decide, by decide, ?_⟩
  exact cfft_r2c_hermitian 4 [1, 2, 3, 4] 1
    (fun _ => [⟨1, 1⟩, ⟨2, 2⟩, ⟨3, 3⟩]) (fun _ => 0) (fun _ => 0) (fun _ => 0)
    true [⟨0, 0⟩, ⟨0, 0⟩, ⟨0, 0⟩, ⟨0, 0⟩] (by decide) (fun l => rfl) 3
    (by decide) (by decide)

/-- C6: for the batched complex-to-real transform with effort above
fastest-guess, a scratch of `n*m` complex elements is allocated, only `n`
complex elements are copied into it, and — for `m ≥ 2` — the executed
buffer's positions from `n` up to `n*m` (positions the transform reads,
since `n < nc*m`) hold planner garbage never populated from the caller's
remaining signals. -/
theorem cmvfft_c2r_scratch_underfilled (n m : Nat) (data : List CQ)
    (opt : Int) (dft : List CQ → List Int) (u p x : Nat → CQ) (ok : Bool)
    (res0 : List Int) (h : fftw_efforts opt ≠ FFTW_ESTIMATE)
    (hm : 2 ≤ m) (hn : 1 ≤ n) (hdata : data.length = r2c_nc n * m) :
    Event.alloc (n * m) ok ∈ (cmvfft_c2r n m data opt dft u p x ok res0).tr ∧
    Event.memcpy Buf.scratch n ∈
      (cmvfft_c2r n m data opt dft u p x ok res0).tr ∧
    n < n * m ∧ n < r2c_nc n * m ∧
    ∀ j, n ≤ j → j < n * m →
      (cmvfft_c2r n m data opt dft u p x ok res0).execIn.getD j ⟨0, 0⟩ =
        p j := by
  have hmul : n * 2 ≤ n * m := Nat.mul_le_mul_left n hm
  have hmul2 : r2c_nc n * 2 ≤ r2c_nc n * m := Nat.mul_le_mul_left _ hm
  have hlt : n < r2c_nc n * m := by
    unfold r2c_nc at hmul2 ⊢
    omega
  have hdlen : n ≤ data.length := by
    rw [hdata]
    exact le_of_lt hlt
  unfold cmvfft_c2r
  rw [if_neg h]
  refine ⟨by simp, by simp, by omega, hlt, ?_⟩
  intro j hj1 hj2
  show (memcpy (clobber p (malloc (n * m) u)) data n).getD j ⟨0, 0⟩ = p j
  rw [memcpy_getD_high _ _ _ _ _ hdlen hj1]
  exact clobber_getD p _ j ⟨0, 0⟩ (by rw [malloc_length]; exact hj2)

/-- Witness for C6: the underfilled scratch observed at `n = 2`, `m = 2`,
effort code 1; position 2 of the executed buffer holds planner garbage. -/
theorem cmvfft_c2r_scratch_underfilled_concrete :
    fftw_efforts 1 ≠ FFTW_ESTIMATE ∧
    ([⟨1, 0⟩, ⟨2, 0⟩, ⟨3, 0⟩, ⟨4, 0⟩] : List CQ).length = r2c_nc 2 * 2 ∧
    (cmvfft_c2r 2 2 [⟨1, 0⟩, ⟨2, 0⟩, ⟨3, 0⟩, ⟨4, 0⟩] 1 (fun _ => [])
      (fun _ => ⟨9, 9⟩) (fun j => ⟨(j : Int), 5⟩) (fun _ => ⟨0, 0⟩) true
      []).execIn.getD 2 ⟨0, 0⟩ = ⟨(2 : Int), 5⟩ := by
  refine ⟨by decide, by decide, ?_⟩
  exact (cmvfft_c2r_scratch_underfilled 2 2 [⟨1, 0⟩, ⟨2, 0⟩, ⟨3, 0⟩, ⟨4, 0⟩] 1
    (fun _ => []) (fun _ => ⟨9, 9⟩) (fun j => ⟨(j : Int), 5⟩) (fun _ => ⟨0, 0⟩)
    true [] (by decide) (by decide) (by decide) (by decide)).2.2.2.2 2
    (by decide) (by decide)

/-- C10: for `n ≥ 1` and every index `i` walked by the Hermitian loop,
the mirrored source index `n - i` lies in `[1, ⌊n/2⌋]`, hence strictly
below `nc`: the loop reads only bins of the non-redundant half, never an
index it writes itself, and every access is in bounds. -/
theorem herm_loop_indices_safe (n i : Nat) (hn : 1 ≤ n)
    (hi : i ∈ hermIdxs n) :
    1 ≤ n - i ∧ n - i ≤ n / 2 ∧ n - i < r2c_nc n ∧ n - i ∉ hermIdxs n ∧
      i < n := by
  have hi' := (mem_hermIdxs n i).mp hi
  have hni : ¬(r2c_nc n ≤ n - i ∧ n - i < r2c_nc n + (n - r2c_nc n)) := by
    unfold r2c_nc at hi' ⊢
    omega
  unfold r2c_nc at hi'
  refine ⟨?_, ?_, ?_, fun hmem => hni ((mem_hermIdxs n (n - i)).mp hmem), ?_⟩ <;>
    omega

/-- Witness for C10: the bounds checked at `n = 5`, `i = 3`. -/
theorem herm_loop_indices_safe_concrete :
    1 ≤ 5 ∧ (3 : Nat) ∈ hermIdxs 5 ∧
    (1 ≤ 5 - 3 ∧ 5 - 3 ≤ 5 / 2 ∧ 5 - 3 < r2c_nc 5 ∧
      (5 - 3 : Nat) ∉ hermIdxs 5 ∧ 3 < 5) :=
  ⟨by decide, by decide, herm_loop_indices_safe 5 3 (by decide) (by decide)⟩

/-- C1: for both real-to-complex entry points, whenever the effort level
is above fastest-guess, the event order is: scratch allocated, plan
created against the still-uninitialized scratch, and only then the
caller's input copied in (and executed only after the copy). -/
theorem r2c_plan_before_copy (n m : Nat) (data dataM : List Int)
    (retHermConj : Int) (opt : Int) (dft dftM : List Int → List CQ)
    (u p x uM pM xM : Nat → Int) (ok okM : Bool) (res0 res0M : List CQ)
    (h : fftw_efforts opt ≠ FFTW_ESTIMATE) :
    goodPlanOrder (cfft_r2c n data retHermConj opt dft u p x ok res0).tr = true ∧
    goodPlanOrder (cmvfft_r2c n m dataM opt dftM uM pM xM okM res0M).tr = true := by
  unfold cfft_r2c cmvfft_r2c
  rw [if_neg h, if_neg h]
  exact ⟨rfl, rfl⟩

/-- Witness for C1: the ordering checked on a concrete call with effort
code 1 (measure). -/
theorem r2c_plan_before_copy_concrete :
    fftw_efforts 1 ≠ FFTW_ESTIMATE ∧
    goodPlanOrder (cfft_r2c 4 [1, 2, 3, 4] 0 1 (fun _ => [])
      (fun _ => 0) (fun _ => 0) (fun _ => 0) true []).tr = true ∧
    goodPlanOrder (cmvfft_r2c 4 2 [1, 2, 3, 4, 5, 6, 7, 8] 1 (fun _ => [])
      (fun _ => 0) (fun _ => 0) (fun _ => 0) true []).tr = true := by
  refine ⟨by decide, ?_, ?_⟩
  · exact (r2c_plan_before_copy 4 2 [1, 2, 3, 4] [1, 2, 3, 4, 5, 6, 7, 8] 0 1
      (fun _ => []) (fun _ => []) (fun _ => 0) (fun _ => 0) (fun _ => 0)
      (fun _ => 0) (fun _ => 0) (fun _ => 0) true true [] [] (by decide)).1
  · exact (r2c_plan_before_copy 4 2 [1, 2, 3, 4] [1, 2, 3, 4, 5, 6, 7, 8] 0 1
      (fun _ => []) (fun _ => []) (fun _ => 0) (fun _ => 0) (fun _ => 0)
      (fun _ => 0) (fun _ => 0) (fun _ => 0) true true [] [] (by decide)).2

/-- C2 (code evaluated at the failing input): `cfft_r2c` never inspects
the result of `malloc`; with effort code 1 and a failed scratch
allocation the call still creates the plan, still copies, and still
executes, instead of stopping. -/
theorem cfft_r2c_alloc_failure_ignored :
    Event.alloc 4 false ∈ (cfft_r2c 4 [1, 2, 3, 4] 0 1 (fun _ => [])
      (fun _ => 0) (fun _ => 0) (fun _ => 0) false []).tr ∧
    (cfft_r2c 4 [1, 2, 3, 4] 0 1 (fun _ => [])
      (fun _ => 0) (fun _ => 0) (fun _ => 0) false []).tr.any
        Event.isPlanCreate = true ∧
    (cfft_r2c 4 [1, 2, 3, 4] 0 1 (fun _ => [])
      (fun _ => 0) (fun _ => 0) (fun _ => 0) false []).tr.any
        Event.isMemcpy = true ∧
    (cfft_r2c 4 [1, 2, 3, 4] 0 1 (fun _ => [])
      (fun _ => 0) (fun _ => 0) (fun _ => 0) false []).tr.any
        Event.isExecute = true := by
  refine ⟨?_, rfl, rfl, rfl⟩
  decide

/-- C3 (code evaluated at the failing input): with `n = 2`, `m = 2` and
effort code 1, `cmvfft_c2c` allocates a scratch of `n*m = 4` complex
elements but copies only `n = 2` of the caller's 4 elements into it, so
the executed buffer is not the caller's input. -/
theorem cmvfft_c2c_copies_single_signal_only :
    Event.alloc 4 true ∈ (cmvfft_c2c 2 2 [⟨1, 0⟩, ⟨2, 0⟩, ⟨3, 0⟩, ⟨4, 0⟩] 0 1
      (fun _ l => l) (fun _ => ⟨9, 9⟩) (fun _ => ⟨0, 0⟩) (fun _ => ⟨0, 0⟩)
      true [⟨0, 0⟩, ⟨0, 0⟩, ⟨0, 0⟩, ⟨0, 0⟩]).tr ∧
    Event.memcpy Buf.scratch 2 ∈ (cmvfft_c2c 2 2
      [⟨1, 0⟩, ⟨2, 0⟩, ⟨3, 0⟩, ⟨4, 0⟩] 0 1
      (fun _ l => l) (fun _ => ⟨9, 9⟩) (fun _ => ⟨0, 0⟩) (fun _ => ⟨0, 0⟩)
      true [⟨0, 0⟩, ⟨0, 0⟩, ⟨0, 0⟩, ⟨0, 0⟩]).tr ∧
    Event.memcpy Buf.scratch 4 ∉ (cmvfft_c2c 2 2
      [⟨1, 0⟩, ⟨2, 0⟩, ⟨3, 0⟩, ⟨4, 0⟩] 0 1
      (fun _ l => l) (fun _ => ⟨9, 9⟩) (fun _ => ⟨0, 0⟩) (fun _ => ⟨0, 0⟩)
      true [⟨0, 0⟩, ⟨0, 0⟩, ⟨0, 0⟩, ⟨0, 0⟩]).tr ∧
    (cmvfft_c2c 2 2 [⟨1, 0⟩, ⟨2, 0⟩, ⟨3, 0⟩, ⟨4, 0⟩] 0 1
      (fun _ l => l) (fun _ => ⟨9, 9⟩) (fun _ => ⟨0, 0⟩) (fun _ => ⟨0, 0⟩)
      true [⟨0, 0⟩, ⟨0, 0⟩, ⟨0, 0⟩, ⟨0, 0⟩]).execIn ≠
      [⟨1, 0⟩, ⟨2, 0⟩, ⟨3, 0⟩, ⟨4, 0⟩] := by
  refine ⟨?_, ?_, ?_, ?_⟩ <;> decide

/-- C5: for both real-to-complex entry points, whenever the effort level
is above fastest-guess, the caller's input buffer is returned unmodified:
destructive planning and execution touch only the scratch copy. -/
theorem r2c_input_preserved (n m : Nat) (data dataM : List Int)
    (retHermConj : Int) (opt : Int) (dft dftM : List Int → List CQ)
    (u p x uM pM xM : Nat → Int) (ok okM : Bool) (res0 res0M : List CQ)
    (h : fftw_efforts opt ≠ FFTW_ESTIMATE) :
    (cfft_r2c n data retHermConj opt dft u p x ok res0).data = data ∧
    (cmvfft_r2c n m dataM opt dftM uM pM xM okM res0M).data = dataM := by
  unfold cfft_r2c cmvfft_r2c
  rw [if_neg h, if_neg h]
  exact ⟨rfl, rfl⟩

/-- Witness for C5: input preservation checked on a concrete call with
effort code 2 (patient). -/
theorem r2c_input_preserved_concrete :
    fftw_efforts 2 ≠ FFTW_ESTIMATE ∧
    (cfft_r2c 4 [5, 6, 7, 8] 0 2 (fun _ => [])
      (fun _ => 1) (fun _ => 2) (fun _ => 3) true []).data = [5, 6, 7, 8] ∧
    (cmvfft_r2c 3 2 [1, 2, 3, 4, 5, 6] 2 (fun _ => [])
      (fun _ => 1) (fun _ => 2) (fun _ => 3) true []).data =
      [1, 2, 3, 4, 5, 6] := by
  refine ⟨by decide, ?_, ?_⟩
  · exact (r2c_input_preserved 4 3 [5, 6, 7, 8] [1, 2, 3, 4, 5, 6] 0 2
      (fun _ => []) (fun _ => []) (fun _ => 1) (fun _ => 2) (fun _ => 3)
      (fun _ => 1) (fun _ => 2) (fun _ => 3) true true [] [] (by decide)).1
  · exact (r2c_input_preserved 4 3 [5, 6, 7, 8] [1, 2, 3, 4, 5, 6] 0 2
      (fun _ => []) (fun _ => []) (fun _ => 1) (fun _ => 2) (fun _ => 3)
      (fun _ => 1) (fun _ => 2) (fun _ => 3) true true [] [] (by decide)).2

/-- C7 (code evaluated at the failing input): effort invariance fails for
the batched complex-to-complex transform.  With `n = 2`, `m = 2` and an
identity kernel, the fastest-guess path executes the transform on the
caller's 4 elements, while the effort-1 path executes it on a scratch
containing only the first 2 of them (the rest is planner garbage), so
the two effort levels produce different outputs. -/
theorem cmvfft_c2c_effort_changes_result :
    (cmvfft_c2c 2 2 [⟨1, 0⟩, ⟨2, 0⟩, ⟨3, 0⟩, ⟨4, 0⟩] 0 0
      (fun _ l => l) (fun _ => ⟨9, 9⟩) (fun _ => ⟨0, 0⟩) (fun _ => ⟨0, 0⟩)
      true [⟨0, 0⟩, ⟨0, 0⟩, ⟨0, 0⟩, ⟨0, 0⟩]).execIn =
      [⟨1, 0⟩, ⟨2, 0⟩, ⟨3, 0⟩, ⟨4, 0⟩] ∧
    (cmvfft_c2c 2 2 [⟨1, 0⟩, ⟨2, 0⟩, ⟨3, 0⟩, ⟨4, 0⟩] 0 1
      (fun _ l => l) (fun _ => ⟨9, 9⟩) (fun _ => ⟨0, 0⟩) (fun _ => ⟨0, 0⟩)
      true [⟨0, 0⟩, ⟨0, 0⟩, ⟨0, 0⟩, ⟨0, 0⟩]).execIn ≠
      [⟨1, 0⟩, ⟨2, 0⟩, ⟨3, 0⟩, ⟨4, 0⟩] ∧
    (cmvfft_c2c 2 2 [⟨1, 0⟩, ⟨2, 0⟩, ⟨3, 0⟩, ⟨4, 0⟩] 0 0
      (fun _ l => l) (fun _ => ⟨9, 9⟩) (fun _ => ⟨0, 0⟩) (fun _ => ⟨0, 0⟩)
      true [⟨0, 0⟩, ⟨0, 0⟩, ⟨0, 0⟩, ⟨0, 0⟩]).res ≠
    (cmvfft_c2c 2 2 [⟨1, 0⟩, ⟨2, 0⟩, ⟨3, 0⟩, ⟨4, 0⟩] 0 1
      (fun _ l => l) (fun _ => ⟨9, 9⟩) (fun _ => ⟨0, 0⟩) (fun _ => ⟨0, 0⟩)
      true [⟨0, 0⟩, ⟨0, 0⟩, ⟨0, 0⟩, ⟨0, 0⟩]).res := by
  refine ⟨?_, ?_, ?_⟩ <;> decide

/-- C9: in every complex-to-complex entry point (1-D, 2-D, 3-D, N-D and
batched), a direction flag of 1 (true) selects `FFTW_BACKWARD` (the
inverse, unnormalized transform) and a flag of 0 (false) selects
`FFTW_FORWARD`. -/
theorem c2c_direction_sign (n nx ny nz r m : Nat) (dims : List Nat)
    (opt : Int) (data : List CQ) (dft : Int → List CQ → List CQ)
    (u p x : Nat → CQ) (ok : Bool) (res0 : List CQ) :
    ((cfft_c2c n data 1 dft x res0).sign = FFTW_BACKWARD ∧
     (cfft_c2c n data 0 dft x res0).sign = FFTW_FORWARD) ∧
    ((cfft_c2c_2d nx ny data 1 dft x res0).sign = FFTW_BACKWARD ∧
     (cfft_c2c_2d nx ny data 0 dft x res0).sign = FFTW_FORWARD) ∧
    ((cfft_c2c_3d nx ny nz data 1 dft x res0).sign = FFTW_BACKWARD ∧
     (cfft_c2c_3d nx ny nz data 0 dft x res0).sign = FFTW_FORWARD) ∧
    ((cfft_c2c_xd r dims data 1 dft x res0).sign = FFTW_BACKWARD ∧
     (cfft_c2c_xd r dims data 0 dft x res0).sign = FFTW_FORWARD) ∧
    ((cmvfft_c2c n m data 1 opt dft u p x ok res0).sign = FFTW_BACKWARD ∧
     (cmvfft_c2c n m data 0 opt dft u p x ok res0).sign = FFTW_FORWARD) := by
  refine ⟨⟨rfl, rfl⟩, ⟨rfl, rfl⟩, ⟨rfl, rfl⟩, ⟨rfl, rfl⟩, ?_, ?_⟩ <;>
    · unfold cmvfft_c2c
      split <;> rfl

end Ffts
